import Mathlib

/-!
Shallow embedding of the go-smpp PDU field codec:
* `List.Decode` from the `pdufield` schema decoder (src/unnamed/part_001),
* `New`, `Variable.Bytes`, `UDH.Bytes`, `NewIEConcatenatedShortMessage` and
  `NewUDHConcatenatedShortMessage` from src/smpp/pdu/pdufield,
* the `Max*` length constants from src/smpp/pdu/pdutext/constants.go and the
  per-codec `maxLen` selection from `TestLongMessageEncode`.

Bytes are modelled as `Nat`; Go `byte(x)` truncation is written `% 256` where
the source converts a wider value.  Go's `bytes.Buffer` is a `List Nat`
consumed from the front; its `ReadByte`/`ReadBytes` can only fail with
`io.EOF`, so the decoder's `return nil, err` branches for non-EOF errors are
dead code and the embedding has no corresponding branch.  The one genuine
run-time failure (`r.Next(n)` with a negative `n`, and the unchecked slicing
in `New`) is modelled as an explicit crash result.
-/

/-- PDU field names, from the `Name` constants in
src/smpp/pdu/pdufield/types.go. -/
inductive Name where
  | addrNPI | addrTON | addressRange | dataCoding | destAddrNPI | destAddrTON
  | destinationAddr | destinationList | esmClass | errorCode | finalDate
  | interfaceVersion | messageID | messageState | numberDests | noUnsuccess
  | password | priorityFlag | protocolID | registeredDelivery
  | replaceIfPresentFlag | smDefaultMsgID | smLength | scheduleDeliveryTime
  | serviceType | shortMessage | sourceAddr | sourceAddrNPI | sourceAddrTON
  | systemID | systemType | udhLength | gsmUserData | unsuccessSme
  | validityPeriod
deriving DecidableEq, Repr

/-- `UDHIE` (Information Element of a User Data Header),
src/smpp/pdu/pdufield/types.go. -/
structure UDHIE where
  IEI : Nat
  IELength : Nat
  IEData : List Nat
deriving DecidableEq, Repr

/-- `DestSme` sub-record (types.go); the `Fixed`/`Variable` wrappers of the
Go struct fields are represented by their payloads. -/
structure DestSme where
  Flag : Nat
  Ton : Nat
  Npi : Nat
  DestAddr : List Nat
deriving DecidableEq, Repr

/-- `UnSme` sub-record (types.go). -/
structure UnSme where
  Ton : Nat
  Npi : Nat
  DestAddr : List Nat
  ErrCode : List Nat
deriving DecidableEq, Repr

/-- The tagged sum of PDU field values stored into the decoded map
(`Fixed`, `Variable`, `Null`, `SM`, `UDH`, `DestSmeList`, `UnSmeList`
from types.go). -/
inductive Body where
  | fixed (b : Nat)
  | var (d : List Nat)
  | null
  | sm (d : List Nat)
  | udh (ie : List UDHIE)
  | destSmeList (d : List DestSme)
  | unSmeList (d : List UnSme)
deriving DecidableEq, Repr

/-- The decoded field map `Map`; Go's `map[Name]Body` is modelled as an
association list written in insertion order (only `get`/`set` are used). -/
abbrev Map := List (Name × Body)

/-- Lookup in the field map. -/
def Map.get (m : Map) (k : Name) : Option Body :=
  match m with
  | [] => none
  | (k', v) :: rest => if k' = k then some v else Map.get rest k

/-- Assignment `f[k] = v` in the field map. -/
def Map.set (m : Map) (k : Name) (v : Body) : Map :=
  match m with
  | [] => [(k, v)]
  | (k', v') :: rest =>
      if k' = k then (k, v) :: rest else (k', v') :: Map.set rest k v

/-- `bytes.Buffer.ReadBytes(0x00)`: read up to and including the first 0x00.
Returns the bytes read (with the delimiter) and the rest of the buffer; when
no delimiter is present the whole buffer is consumed and the read fails with
`io.EOF`, modelled as `none` in the first component. -/
def readBytes0 : List Nat → Option (List Nat) × List Nat
  | [] => (none, [])
  | 0 :: rest => (some [0], rest)
  | b :: rest =>
      match readBytes0 rest with
      | (none, r) => (none, r)
      | (some d, r) => (some (b :: d), r)

/-- Data coding byte for the GSM default alphabet.
Modelled from the spec: data coding bytes table gives 0x00 for GSM default
(`pdutext.DefaultType` is not under src/). -/
def DefaultType : Nat := 0x00

/-- Data coding byte for Latin-1.
Modelled from the spec: data coding bytes table gives 0x03 for Latin-1. -/
def Latin1Type : Nat := 0x03

/-- Data coding byte for UCS-2-BE.
Modelled from the spec: data coding bytes table gives 0x08 for UCS-2-BE. -/
def UCS2Type : Nat := 0x08

/-- Data coding byte for ISO 8859-5.
Modelled from the spec: the spec's table omits this codec; the value 0x06 is
the GSM 03.38 Cyrillic coding used by the missing `pdutext.ISO88595Type`.
No claim depends on the value, only on it being distinct from the other
three data coding constants. -/
def ISO88595Type : Nat := 0x06

/-- Decoding of one GSM 03.38 extension-table code reached via the 0x1B
escape, producing UTF-8 bytes.
Modelled from the spec: the extension set is listed in section 4.1 and the
euro mapping is pinned by `encode of Hello-euro ends in 1B 65`; the numeric
codes for the remaining extension characters follow GSM 03.38.  An unmapped
code after the escape is emitted unchanged. -/
def gsm7ExtDecode (c : Nat) : List Nat :=
  if c = 0x0A then [0x0C]
  else if c = 0x14 then [0x5E]
  else if c = 0x28 then [0x7B]
  else if c = 0x29 then [0x7D]
  else if c = 0x2F then [0x5C]
  else if c = 0x3C then [0x5B]
  else if c = 0x3D then [0x7E]
  else if c = 0x3E then [0x5D]
  else if c = 0x40 then [0x7C]
  else if c = 0x65 then [0xE2, 0x82, 0xAC]
  else [c]

/-- GSM 7-bit (unpacked) text decoding.
Modelled from the spec: `pdutext.GSM7.Decode` is not under src/ (only its
test is).  The spec pins: decode is the inverse of encode, basic characters
coincide with their ASCII bytes (the Hello-world example), the escape pair
1B 65 decodes to the euro sign, and a lone trailing 0x1B is dropped.  The
full default table is the identity here; no claim depends on the non-ASCII
rows of the default table. -/
def gsm7Decode : List Nat → List Nat
  | [] => []
  | [0x1B] => []
  | 0x1B :: c :: rest => gsm7ExtDecode c ++ gsm7Decode rest
  | b :: rest => b :: gsm7Decode rest

/-- Latin-1 text decoding.
Modelled from the spec: section 4.1 describes Latin-1 as the identity
transform on 0x00-0xFF. -/
def latin1Decode (msg : List Nat) : List Nat := msg

/-- UTF-8 encoding of one Unicode scalar value. -/
def utf8Encode (c : Nat) : List Nat :=
  if c < 0x80 then [c]
  else if c < 0x800 then [0xC0 + c / 64, 0x80 + c % 64]
  else if c < 0x10000 then
    [0xE0 + c / 4096, 0x80 + c / 64 % 64, 0x80 + c % 64]
  else
    [0xF0 + c / 262144, 0x80 + c / 4096 % 64, 0x80 + c / 64 % 64,
     0x80 + c % 64]

/-- UCS-2-BE text decoding.
Modelled from the spec: `pdutext.UCS2.Decode` is not under src/; each
big-endian 16-bit code unit is re-encoded as UTF-8.  Surrogate-pair
recombination and the treatment of a trailing odd octet are not pinned by
any claim and are modelled as plain code-unit conversion and dropping. -/
def ucs2Decode : List Nat → List Nat
  | hi :: lo :: rest => utf8Encode (hi * 256 + lo) ++ ucs2Decode rest
  | _ => []

/-- ISO 8859-5 text decoding.
Modelled from the spec: the spec does not describe this codec and no claim
depends on its action, only on which codec the decode dispatch selects; it
is modelled as the identity. -/
def iso88595Decode (msg : List Nat) : List Nat := msg

/-- The `switch dataCoding` dispatch applied to the short message octets in
`List.Decode` (src/unnamed/part_001): GSM7, Latin-1, UCS-2 and ISO 8859-5
are decoded, any other coding stores the raw octets. -/
def applyCoding (dc : Nat) (msg : List Nat) : List Nat :=
  if dc = DefaultType then gsm7Decode msg
  else if dc = Latin1Type then latin1Decode msg
  else if dc = UCS2Type then ucs2Decode msg
  else if dc = ISO88595Type then iso88595Decode msg
  else msg

/-- The local decoder state of `List.Decode` (src/unnamed/part_001): the
remaining buffer, the map built so far, and the context variables
`unsuccessCount`, `numDest`, `udhLength`, `smLength`, `dataCoding`,
`udhiFlag`.  `smLength` is a Go `int` and is mutated (possibly below zero)
by the `short_message` branch, so it is an `Int`. -/
structure DecSt where
  buf : List Nat
  f : Map
  unsuccessCount : Nat
  numDest : Nat
  udhLength : Nat
  smLength : Int
  dataCoding : Nat
  udhiFlag : Bool
deriving DecidableEq, Repr

/-- Result of one iteration of the schema loop in `List.Decode`:
continue with the next field, `break loop` (return the map so far with a
nil error), or crash (the `r.Next` call with a negative count panics in
Go). -/
inductive StepRes where
  | cont (st : DecSt)
  | halt (st : DecSt)
  | crash
deriving DecidableEq, Repr

/-- The `gsm_sms_ud` IE loop of `List.Decode`
(`for i := udhLength; i > 0; i -= l + 2`): read IEI and IELength bytes,
then `r.Next(l)` octets of IEData; any end-of-input (including a short
`Next`) is `break loop`, reported by the `Bool` component (the IE parsed so
far is still appended first, exactly as the source appends before the
`len(bt) != l` check). -/
def readIEs (buf : List Nat) (i : Int) (acc : List UDHIE) :
    List UDHIE × List Nat × Bool :=
  if 0 < i then
    match buf with
    | [] => (acc, [], true)
    | [_] => (acc, [], true)
    | iei :: len :: rest =>
        let l := len
        let bt := rest.take l
        let acc' := acc ++ [⟨iei, len, bt⟩]
        if bt.length ≠ l then (acc', rest.drop l, true)
        else readIEs (rest.drop l) (i - (l + 2)) acc'
  else (acc, buf, false)
termination_by i.toNat
decreasing_by
  simp_wf
  omega

/-- The `dest_addresses` loop of `List.Decode`: `numDest` repetitions of
flag, TON, NPI and a C-string address; end-of-input is `break loop`. -/
def readDests (buf : List Nat) (count : Nat) (acc : List DestSme) :
    List DestSme × List Nat × Bool :=
  match count with
  | 0 => (acc, buf, false)
  | c + 1 =>
      match buf with
      | [] => (acc, [], true)
      | [_] => (acc, [], true)
      | [_, _] => (acc, [], true)
      | flag :: ton :: npi :: r3 =>
          match readBytes0 r3 with
          | (none, r) => (acc, r, true)
          | (some addr, r) => readDests r c (acc ++ [⟨flag, ton, npi, addr⟩])

/-- The `unsuccess_sme` loop of `List.Decode`: `unsuccessCount` repetitions
of TON, NPI, a C-string address and `r.Next(4)` error-code octets (the
error code is taken without a length check, as in the source). -/
def readUns (buf : List Nat) (count : Nat) (acc : List UnSme) :
    List UnSme × List Nat × Bool :=
  match count with
  | 0 => (acc, buf, false)
  | c + 1 =>
      match buf with
      | [] => (acc, [], true)
      | [_] => (acc, [], true)
      | ton :: npi :: r2 =>
          match readBytes0 r2 with
          | (none, r) => (acc, r, true)
          | (some addr, r) =>
              readUns (r.drop 4) c (acc ++ [⟨ton, npi, addr, r.take 4⟩])

/-- The inner `switch k` of the fixed-octet branch of `List.Decode`,
caching `data_coding`, `no_unsuccess`, `number_of_dests`, `sm_length` and
the UDHI flag (bit 6 of `esm_class`). -/
def applyFixedVar (k : Name) (b : Nat) (st : DecSt) : DecSt :=
  match k with
  | .dataCoding => { st with dataCoding := b }
  | .noUnsuccess => { st with unsuccessCount := b }
  | .numberDests => { st with numDest := b }
  | .smLength => { st with smLength := (b : Int) }
  | .esmClass => { st with udhiFlag := Nat.land b 64 == 64 }
  | _ => st

/-- One iteration of the schema loop of `List.Decode`
(src/unnamed/part_001), i.e. the body of `for _, k := range l` for a single
field name `k`. -/
def decodeStep (k : Name) (st : DecSt) : StepRes :=
  match k with
  | .addressRange | .destinationAddr | .errorCode | .finalDate | .messageID
  | .messageState | .password | .scheduleDeliveryTime | .serviceType
  | .sourceAddr | .systemID | .systemType | .validityPeriod =>
      match readBytes0 st.buf with
      | (none, rest) => .halt { st with buf := rest }
      | (some b, rest) =>
          .cont { st with buf := rest, f := Map.set st.f k (.var b) }
  | .addrNPI | .addrTON | .dataCoding | .destAddrNPI | .destAddrTON
  | .esmClass | .interfaceVersion | .numberDests | .noUnsuccess
  | .priorityFlag | .protocolID | .registeredDelivery
  | .replaceIfPresentFlag | .smDefaultMsgID | .sourceAddrNPI
  | .sourceAddrTON | .smLength =>
      match st.buf with
      | [] => .halt st
      | b :: rest =>
          .cont (applyFixedVar k b
            { st with buf := rest, f := Map.set st.f k (.fixed b) })
  | .udhLength =>
      if st.udhiFlag then
        match st.buf with
        | [] => .halt st
        | b :: rest =>
            .cont { st with buf := rest, udhLength := b,
                            f := Map.set st.f .udhLength (.fixed b) }
      else .cont { st with f := Map.set st.f .udhLength .null }
  | .gsmUserData =>
      if st.udhiFlag then
        match readIEs st.buf (st.udhLength : Int) [] with
        | (_, rest, true) => .halt { st with buf := rest }
        | (ies, rest, false) =>
            .cont { st with buf := rest,
                            f := Map.set st.f .gsmUserData (.udh ies) }
      else .cont { st with f := Map.set st.f .gsmUserData .null }
  | .destinationList =>
      match readDests st.buf st.numDest [] with
      | (_, rest, true) => .halt { st with buf := rest }
      | (ds, rest, false) =>
          .cont { st with buf := rest,
                          f := Map.set st.f .destinationList (.destSmeList ds) }
  | .unsuccessSme =>
      match readUns st.buf st.unsuccessCount [] with
      | (_, rest, true) => .halt { st with buf := rest }
      | (us, rest, false) =>
          .cont { st with buf := rest,
                          f := Map.set st.f .unsuccessSme (.unSmeList us) }
  | .shortMessage =>
      let n : Int :=
        if st.udhiFlag then st.smLength - ((st.udhLength : Int) + 1)
        else st.smLength
      if n < 0 then .crash
      else
        .cont { st with buf := st.buf.drop n.toNat, smLength := n,
                        f := Map.set st.f .shortMessage
                          (.sm (applyCoding st.dataCoding
                            (st.buf.take n.toNat))) }

/-- The schema loop of `List.Decode` run from an arbitrary state; the
`Bool` reports whether the loop ended by `break loop`.  `none` is the Go
panic from `r.Next` with a negative count. -/
def decodeGo : List Name → DecSt → Option (DecSt × Bool)
  | [], st => some (st, false)
  | k :: ks, st =>
      match decodeStep k st with
      | .crash => none
      | .halt st' => some (st', true)
      | .cont st' => decodeGo ks st'

/-- The initial decoder state: all context variables zero, the UDHI flag
clear, the map empty. -/
def initSt (buf : List Nat) : DecSt :=
  { buf := buf, f := [], unsuccessCount := 0, numDest := 0, udhLength := 0,
    smLength := 0, dataCoding := 0, udhiFlag := false }

/-- `List.Decode` (src/unnamed/part_001): walk the schema list, building
the field map; returns the map and the unconsumed buffer.  All successful
returns of the Go function carry a nil error (every end-of-input is
`break loop; return f, nil` and `bytes.Buffer` produces no other read
error); `none` models the `r.Next` panic on a negative count. -/
def List.Decode (l : List Name) (buf : List Nat) : Option (Map × List Nat) :=
  match decodeGo l (initSt buf) with
  | none => none
  | some (st, _) => some (st.f, st.buf)

/-- `Variable.Bytes` (src/smpp/pdu/pdufield/types.go): return the data as
is when it is nonempty and already ends in 0x00, otherwise append a single
0x00 terminator. -/
def variableBytes (d : List Nat) : List Nat :=
  if 0 < d.length ∧ d.getLast? = some 0 then d else d ++ [0]

/-- `UDHIE.Bytes` (types.go): IEI, IELength, then the IE data. -/
def udhieBytes (ie : UDHIE) : List Nat := ie.IEI :: ie.IELength :: ie.IEData

/-- `UDH.Bytes` (types.go): concatenation of the serialized IEs, in
order. -/
def udhBytes : List UDHIE → List Nat
  | [] => []
  | ie :: rest => udhieBytes ie ++ udhBytes rest

/-- The IE parse loop of `New` for `GSMUserData`
(src/smpp/pdu/pdufield/body.go): `for i := 0; i < len(data);` reads
`data[i]` as IEI, `data[i+1]` as IELength and the next IELength octets as
IEData, advancing `i` by `2 + IELength`.  The loop trusts the embedded
length octet: `data[i+1]` with `i+1 = len(data)`, or a record extending
past the end of `data`, indexes out of bounds (a Go panic), modelled as
`none`.  The recursion consumes the same `2 + IELength` octets per record
that the index `i` skips. -/
def parseIEs : List Nat → Option (List UDHIE)
  | [] => some []
  | [_] => none
  | iei :: len :: rest =>
      if len ≤ rest.length then
        match parseIEs (rest.drop len) with
        | some ies => some (⟨iei, len, rest.take len⟩ :: ies)
        | none => none
      else none
termination_by l => l.length
decreasing_by
  simp_wf
  omega

/-- Exact well-formedness of a serialized IE sequence: it splits into
records `(IEI, IELength, IEData)` with `IELength = len(IEData)` and nothing
left over.  This is the precondition under which the `New` parse loop never
indexes out of bounds. -/
def ieWF : List Nat → Bool
  | [] => true
  | [_] => false
  | _ :: len :: rest => len ≤ rest.length && ieWF (rest.drop len)
termination_by l => l.length
decreasing_by
  simp_wf
  omega

/-- Result of `New` (body.go): a parsed `Body`, the nil interface returned
for an unknown field name, or a crash (out-of-bounds indexing in the
`GSMUserData` branch, or `data[0]` on a non-nil empty slice in the fixed
branch). -/
inductive NewResult where
  | body (b : Body)
  | nilBody
  | crash
deriving DecidableEq, Repr

/-- `New` (src/smpp/pdu/pdufield/body.go): parse raw bytes into a `Body`
according to the field name.  The `data` argument is `none` for a nil Go
slice (the source distinguishes nil from empty).  Note the grouping differs
from `List.Decode`: here `error_code` and `message_state` are fixed-octet
fields and `dest_addresses`/`unsuccess_sme` are raw variable fields. -/
def New (n : Name) (data : Option (List Nat)) : NewResult :=
  match n with
  | .addrNPI | .addrTON | .dataCoding | .destAddrNPI | .destAddrTON
  | .esmClass | .errorCode | .interfaceVersion | .messageState
  | .numberDests | .noUnsuccess | .priorityFlag | .protocolID
  | .registeredDelivery | .replaceIfPresentFlag | .smDefaultMsgID
  | .smLength | .sourceAddrNPI | .sourceAddrTON =>
      match data with
      | none => .body (.fixed 0)
      | some [] => .crash
      | some (b :: _) => .body (.fixed b)
  | .addressRange | .destinationAddr | .destinationList | .finalDate
  | .messageID | .password | .scheduleDeliveryTime | .serviceType
  | .sourceAddr | .systemID | .systemType | .unsuccessSme
  | .validityPeriod => .body (.var (data.getD []))
  | .udhLength =>
      match data with
      | none => .body .null
      | some [] => .body .null
      | some (b :: _) => .body (.fixed b)
  | .shortMessage => .body (.sm (data.getD []))
  | .gsmUserData =>
      let d := data.getD []
      if 2 < d.length then
        match parseIEs d with
        | some ies => .body (.udh ies)
        | none => .crash
      else .body .null

/-- `NewIEConcatenatedShortMessage` (types.go): the concatenation IE for
one part; 8-bit reference (IEI 0x00, length 3) when the reference fits in a
byte, 16-bit big-endian reference (IEI 0x08, length 4) otherwise.  `byte()`
conversions are `% 256`. -/
def NewIEConcatenatedShortMessage (ref total part : Nat) : UDHIE :=
  if 0xFF < ref then
    ⟨0x08, 4, [ref / 256 % 256, ref % 256, total % 256, part % 256]⟩
  else
    ⟨0x00, 3, [ref % 256, total % 256, part % 256]⟩

/-- `NewUDHConcatenatedShortMessage` (types.go): a UDH holding exactly the
one concatenation IE. -/
def NewUDHConcatenatedShortMessage (ref total part : Nat) : List UDHIE :=
  [NewIEConcatenatedShortMessage ref total part]

/-- Constant from src/smpp/pdu/pdutext/constants.go. -/
def MaxGSM7ShortMessageLenEncoded : Nat := 160

/-- Constant from src/smpp/pdu/pdutext/constants.go. -/
def MaxUCS2ShortMessageLenEncoded : Nat := 140

/-- Constant from src/smpp/pdu/pdutext/constants.go. -/
def MaxConcatenatedShortMessageLenEncoded : Nat := 133

/-- Constant from src/smpp/pdu/pdutext/constants.go. -/
def MaxGSM7ConcatenatedShortMessageLenEncoded : Nat := 152

/-- Constant from src/smpp/pdu/pdutext/constants.go. -/
def MaxUCS2ConcatenatedShortMessageLenEncoded : Nat := 132

/-- The text codec variants of the pdutext package. -/
inductive Codec where
  | gsm7 | gsm7packed | latin1 | ucs2 | iso88595 | raw
deriving DecidableEq, Repr

/-- The per-codec `maxLen` selection of the long-message encoder, embedded
from the `switch sm.Text.(type)` in `TestLongMessageEncode`
(src/smpp/pdu/pdufield/body.go test part): 133 by default, 152 for GSM7
unpacked, 132 for GSM7 packed and for UCS-2. -/
def maxLenForCodec : Codec → Nat
  | .gsm7 => 152
  | .gsm7packed => 132
  | .ucs2 => 132
  | _ => 133

/-- The schema names decoded as C-strings by the first case of the
`List.Decode` switch. -/
def variableGroupNames : List Name :=
  [.addressRange, .destinationAddr, .errorCode, .finalDate, .messageID,
   .messageState, .password, .scheduleDeliveryTime, .serviceType,
   .sourceAddr, .systemID, .systemType, .validityPeriod]

/-- The schema names decoded as single fixed octets by the second case of
the `List.Decode` switch. -/
def fixedGroupNames : List Name :=
  [.addrNPI, .addrTON, .dataCoding, .destAddrNPI, .destAddrTON, .esmClass,
   .interfaceVersion, .numberDests, .noUnsuccess, .priorityFlag,
   .protocolID, .registeredDelivery, .replaceIfPresentFlag,
   .smDefaultMsgID, .sourceAddrNPI, .sourceAddrTON, .smLength]

/-! ## Helper lemmas -/

lemma readIEs_overrun (buf : List Nat) (i : Int) (acc : List UDHIE) :
    (buf.length : Int) < i → (readIEs buf i acc).2.2 = true := by
  induction buf, i, acc using readIEs.induct with
  | case1 i acc hi => intro _; simp [readIEs, hi]
  | case2 i acc hi head => intro _; simp [readIEs, hi]
  | case3 i acc hi iei len rest l bt hne =>
      intro _
      unfold bt l at hne
      have hlt : rest.length < len := by
        simp only [ne_eq, List.length_take] at hne
        omega
      simp [readIEs, hi, hlt]
  | case4 i acc hi iei len rest l bt acc' heq ih =>
      intro h
      unfold bt l at heq
      have hle : len ≤ rest.length := by
        simp only [ne_eq, List.length_take, not_not] at heq
        omega
      unfold l at ih
      simp only [readIEs, if_pos hi]
      rw [if_neg (by simp [List.length_take]; omega)]
      apply ih
      simp only [List.length_cons] at h
      simp only [List.length_drop]
      omega
  | case5 buf i acc hi =>
      intro h
      exfalso
      have : (0 : Int) ≤ buf.length := by positivity
      omega

lemma parseIEs_isSome_of_ieWF (data : List Nat) :
    ieWF data = true → (parseIEs data).isSome := by
  induction data using ieWF.induct with
  | case1 => intro _; simp [parseIEs]
  | case2 head => intro h; simp [ieWF] at h
  | case3 iei len rest ih =>
      intro h
      simp only [ieWF, Bool.and_eq_true, decide_eq_true_eq] at h
      obtain ⟨h1, h2⟩ := h
      simp only [parseIEs, if_pos h1]
      have hs := ih h2
      rcases hp : parseIEs (rest.drop len) with _ | ies
      · rw [hp] at hs; simp at hs
      · simp

lemma parseIEs_udhBytes (ies : List UDHIE)
    (h : ∀ ie ∈ ies, ie.IELength = ie.IEData.length) :
    parseIEs (udhBytes ies) = some ies := by
  induction ies with
  | nil => simp [udhBytes, parseIEs]
  | cons ie rest ih =>
      have hie : ie.IELength = ie.IEData.length := h ie (by simp)
      have hrest : ∀ x ∈ rest, x.IELength = x.IEData.length :=
        fun x hx => h x (by simp [hx])
      show parseIEs (ie.IEI :: ie.IELength :: (ie.IEData ++ udhBytes rest)) =
        some (ie :: rest)
      simp only [parseIEs]
      rw [if_pos (by simp [hie])]
      rw [List.take_left' hie.symm, List.drop_left' hie.symm, ih hrest]

/-! ## Claim theorems -/

/-- C1: at the `short_message` entry of the schema loop of `List.Decode`,
with `sm_length` previously parsed as `N` and (when UDHI is set)
`gsm_sms_ud.udh.len` parsed as `U`, the step consumes exactly `N` octets
when the UDHI flag is clear and exactly `N - (U + 1)` octets when it is
set, for every buffer holding at least that many octets (the count is
nonnegative, since the Go code would panic on a negative `r.Next`). -/
theorem c1_short_message_consumption (st : DecSt) (n : Int)
    (hn : n = if st.udhiFlag then st.smLength - ((st.udhLength : Int) + 1)
      else st.smLength)
    (h0 : 0 ≤ n) (h1 : n.toNat ≤ st.buf.length) :
    ∃ st', decodeStep Name.shortMessage st = StepRes.cont st' ∧
      (st'.buf.length : Int) + n = st.buf.length := by
  simp only [decodeStep]
  rw [← hn, if_neg (by omega)]
  refine ⟨_, rfl, ?_⟩
  simp only [List.length_drop]
  omega

/-- Witness for C1: a concrete state with UDHI set, `sm_length = 5`,
`udh.len = 1` and a 3-octet buffer; exactly 5 - (1 + 1) = 3 octets are
consumed. -/
theorem c1_witness :
    ∃ st', decodeStep Name.shortMessage
        { buf := [1, 2, 3], f := [], unsuccessCount := 0, numDest := 0,
          udhLength := 1, smLength := 5, dataCoding := 9,
          udhiFlag := true } = StepRes.cont st' ∧
      (st'.buf.length : Int) + 3 = 3 :=
  c1_short_message_consumption _ 3 (by decide) (by decide) (by decide)

/-- C5: `NewUDHConcatenatedShortMessage` produces a UDH with exactly one
IE; IEI 0x00, length 3 and data `ref, total, part` for a reference small
enough for a byte, IEI 0x08, length 4 and data `hi, lo, total, part` with
the reference big-endian otherwise. -/
theorem c5_udh_concatenated (ref total part : Nat) (h1 : ref < 65536)
    (h2 : total ≤ 255) (h3 : part ≤ 255) :
    (ref ≤ 255 → NewUDHConcatenatedShortMessage ref total part =
      [⟨0x00, 3, [ref, total, part]⟩]) ∧
    (255 < ref → NewUDHConcatenatedShortMessage ref total part =
      [⟨0x08, 4, [ref / 256, ref % 256, total, part]⟩]) := by
  have e2 : total % 256 = total := Nat.mod_eq_of_lt (by omega)
  have e3 : part % 256 = part := Nat.mod_eq_of_lt (by omega)
  constructor <;> intro h <;>
    simp only [NewUDHConcatenatedShortMessage, NewIEConcatenatedShortMessage]
  · rw [if_neg (by omega)]
    have e1 : ref % 256 = ref := Nat.mod_eq_of_lt (by omega)
    rw [e1, e2, e3]
  · rw [if_pos (by omega)]
    have e1 : ref / 256 % 256 = ref / 256 := Nat.mod_eq_of_lt (by omega)
    rw [e1, e2, e3]

/-- Witness for C5: an 8-bit reference 18 and the 16-bit reference
0x1234 = 4660 (high byte 18, low byte 52). -/
theorem c5_witness :
    NewUDHConcatenatedShortMessage 18 2 1 = [⟨0x00, 3, [18, 2, 1]⟩] ∧
    NewUDHConcatenatedShortMessage 4660 2 1 = [⟨0x08, 4, [18, 52, 2, 1]⟩] :=
  ⟨(c5_udh_concatenated 18 2 1 (by decide) (by decide) (by decide)).1
      (by decide),
   (c5_udh_concatenated 4660 2 1 (by decide) (by decide) (by decide)).2
      (by decide)⟩

/-- The claim's phrase `ends with exactly one 0x00 terminator`, read over
the produced byte sequence: the last byte is 0x00 and the byte before it
(when present) is not. -/
def endsWithExactlyOneZero (l : List Nat) : Prop :=
  l.getLast? = some 0 ∧ l.dropLast.getLast? ≠ some 0

/-- Counterexample for C6: for the data `00 00` (which already ends in
0x00) `Variable.Bytes` returns it unchanged, so the output ends in two
0x00 octets, not exactly one. -/
theorem c6_counterexample :
    variableBytes [0, 0] = [0, 0] ∧
      ¬ endsWithExactlyOneZero (variableBytes [0, 0]) := by
  unfold endsWithExactlyOneZero
  refine ⟨by decide, by decide⟩

/-- C6 as amended: `Variable.Bytes` always ends in a 0x00, appends one
exactly when the data is empty or does not already end in 0x00 (an
already-terminated input is never doubled), and serializes the empty data
to the single byte 0x00; a trailing run of 0x00 bytes already present in
the data is preserved, so the output can end in more than one 0x00. -/
theorem c6_amended (d : List Nat) :
    (variableBytes d).getLast? = some 0 ∧
    (variableBytes d = d ++ [0] ↔ (d = [] ∨ d.getLast? ≠ some 0)) ∧
    variableBytes ([] : List Nat) = [0] := by
  by_cases h : 0 < d.length ∧ d.getLast? = some 0
  · have hne : d ≠ [] := by
      intro he
      rw [he] at h
      simp at h
    refine ⟨?_, ?_, by decide⟩
    · rw [variableBytes, if_pos h]
      exact h.2
    · rw [variableBytes, if_pos h]
      constructor
      · intro habs
        have := congrArg List.length habs
        simp at this
      · rintro (rfl | hlast)
        · exact absurd rfl hne
        · exact absurd h.2 hlast
  · refine ⟨?_, ?_, by decide⟩
    · rw [variableBytes, if_neg h]
      simp
    · rw [variableBytes, if_neg h]
      simp only [eq_self_iff_true, true_iff]
      rcases d with _ | ⟨a, rest⟩
      · exact Or.inl rfl
      · refine Or.inr ?_
        intro hlast
        exact h ⟨by simp, hlast⟩

/-- C8: the exported `Max*` constants and the per-codec `maxLen` selection
carry exactly the values of the claim's table: 160 single and 152 per part
for GSM7 unpacked, 132 per part for GSM7 packed and UCS-2 (140 single for
UCS-2), 140 single and 133 per part for all other codings. -/
theorem c8_max_lengths :
    MaxGSM7ShortMessageLenEncoded = 160 ∧
    MaxGSM7ConcatenatedShortMessageLenEncoded = 152 ∧
    MaxUCS2ShortMessageLenEncoded = 140 ∧
    MaxUCS2ConcatenatedShortMessageLenEncoded = 132 ∧
    MaxConcatenatedShortMessageLenEncoded = 133 ∧
    maxLenForCodec Codec.gsm7 = 152 ∧
    maxLenForCodec Codec.gsm7packed = 132 ∧
    maxLenForCodec Codec.ucs2 = 132 ∧
    maxLenForCodec Codec.latin1 = 133 ∧
    maxLenForCodec Codec.iso88595 = 133 ∧
    maxLenForCodec Codec.raw = 133 := by
  decide

/-- C9: the IE parse loop of `New` trusts the embedded IELength octet; on
the 3-byte input `00 05 00` it indexes past the end of the data (the
crash branch of the total embedding), and it is crash-free exactly under
the precondition that the data splits into complete IE records. -/
theorem c9_new_udh_unsafe :
    New Name.gsmUserData (some [0, 5, 0]) = NewResult.crash ∧
    ∀ data : List Nat, ieWF data = true →
      New Name.gsmUserData (some data) ≠ NewResult.crash := by
  refine ⟨by simp [New, parseIEs], ?_⟩
  intro data h
  simp only [New, Option.getD]
  split
  · have hs := parseIEs_isSome_of_ieWF data h
    rcases hp : parseIEs data with _ | ies
    · rw [hp] at hs; simp at hs
    · simp
  · simp

/-- Witness for C9: `00 03 01 02 03` is a single complete IE record, and
`New` does not crash on it. -/
theorem c9_witness :
    ieWF [0, 3, 1, 2, 3] = true ∧
      New Name.gsmUserData (some [0, 3, 1, 2, 3]) ≠ NewResult.crash :=
  ⟨by simp [ieWF], c9_new_udh_unsafe.2 [0, 3, 1, 2, 3] (by simp [ieWF])⟩

/-- C10: for a UDH whose IEs each satisfy IELength = len(IEData), parsing
the serialization back with `New` is the identity on the IE list when the
serialization is longer than 2 octets, and yields `Null` when it is 2
octets or shorter. -/
theorem c10_udh_roundtrip (ies : List UDHIE)
    (h : ∀ ie ∈ ies, ie.IELength = ie.IEData.length) :
    (2 < (udhBytes ies).length →
      New Name.gsmUserData (some (udhBytes ies)) =
        NewResult.body (Body.udh ies)) ∧
    ((udhBytes ies).length ≤ 2 →
      New Name.gsmUserData (some (udhBytes ies)) =
        NewResult.body Body.null) := by
  constructor <;> intro hlen <;> simp only [New, Option.getD]
  · rw [if_pos hlen, parseIEs_udhBytes ies h]
  · rw [if_neg (by omega)]

/-- Witness for C10: the UDH with the single IE `(0, 3, 01 02 03)`
round-trips through `New`, and the UDH with the single empty IE
`(7, 0, -)` serializes to 2 octets and parses to `Null`. -/
theorem c10_witness :
    New Name.gsmUserData (some (udhBytes [⟨0, 3, [1, 2, 3]⟩])) =
      NewResult.body (Body.udh [⟨0, 3, [1, 2, 3]⟩]) ∧
    New Name.gsmUserData (some (udhBytes [⟨7, 0, []⟩])) =
      NewResult.body Body.null :=
  ⟨(c10_udh_roundtrip [⟨0, 3, [1, 2, 3]⟩] (by decide)).1 (by decide),
   (c10_udh_roundtrip [⟨7, 0, []⟩] (by decide)).2 (by decide)⟩

/-- C7: when the UDHI flag is set and the declared UDH length exceeds the
remaining buffer, the `gsm_sms_ud` step of `List.Decode` always ends in
`break loop` (the schema loop returns the map built so far with a nil
error) and never stores or errors from inside the IE loop: the resulting
state carries the field map unchanged. -/
theorem c7_udh_exhaustion_halts (st : DecSt) (hu : st.udhiFlag = true)
    (hlen : st.buf.length < st.udhLength) :
    ∃ st', decodeStep Name.gsmUserData st = StepRes.halt st' ∧
      st'.f = st.f := by
  simp only [decodeStep, hu, if_true]
  have hb : (readIEs st.buf (st.udhLength : Int) []).2.2 = true :=
    readIEs_overrun _ _ _ (by exact_mod_cast hlen)
  rcases hie : readIEs st.buf (st.udhLength : Int) [] with ⟨ies, rest, brk⟩
  rw [hie] at hb
  simp only at hb
  subst hb
  exact ⟨_, rfl, rfl⟩

/-- Witness for C7: UDHI set, declared UDH length 3, empty buffer. -/
theorem c7_witness :
    ∃ st', decodeStep Name.gsmUserData
        { buf := [], f := [(Name.esmClass, Body.fixed 64)],
          unsuccessCount := 0, numDest := 0, udhLength := 3, smLength := 0,
          dataCoding := 0, udhiFlag := true } = StepRes.halt st' ∧
      st'.f = [(Name.esmClass, Body.fixed 64)] :=
  c7_udh_exhaustion_halts _ (by decide) (by decide)

/-- Counterexample for C2: the buffer `00 41` for the schema
`service_type, system_id` ends in the middle of the mandatory `system_id`
C-string (no terminator follows `41`).  `List.Decode` does not fail: it
returns successfully (there is no `ErrMalformed` in the decoder; every
end-of-input is `break loop; return f, nil`) with a partial map missing
the truncated field. -/
theorem c2_counterexample :
    List.Decode [Name.serviceType, Name.systemID] [0, 0x41] =
      some ([(Name.serviceType, Body.var [0])], []) ∧
    Map.get [(Name.serviceType, Body.var [0])] Name.systemID = none := by
  decide

/-- Counterexample for C3: the schema `sm_length, short_message` contains
no `data_coding` field, yet the two raw octets `1B 65` are stored GSM7-
decoded as the euro sign `E2 82 AC` (the `dataCoding` context variable
defaults to 0, the GSM default coding), not as the raw octets. -/
theorem c3_counterexample :
    List.Decode [Name.smLength, Name.shortMessage] [2, 0x1B, 0x65] =
      some ([(Name.smLength, Body.fixed 2),
             (Name.shortMessage, Body.sm [0xE2, 0x82, 0xAC])], []) ∧
    ([0xE2, 0x82, 0xAC] : List Nat) ≠ [0x1B, 0x65] := by
  decide

/-- Counterexample for C4: on the 1-octet buffer `40` with schema
`esm_class, gsm_sms_ud.udh.len`, the `esm_class` octet sets the UDHI flag
but consumes the only octet; the `gsm_sms_ud.udh.len` step then hits end
of input, consumes nothing and stores nothing, refuting the claimed
equivalence `octet consumed for udh.len iff bit 6 was set` for this
buffer. -/
theorem c4_counterexample :
    List.Decode [Name.esmClass, Name.udhLength] [0x40] =
      some ([(Name.esmClass, Body.fixed 0x40)], []) ∧
    Map.get [(Name.esmClass, Body.fixed 0x40)] Name.udhLength = none := by
  decide

lemma decodeGo_append (l1 l2 : List Name) (st : DecSt) :
    decodeGo (l1 ++ l2) st =
      match decodeGo l1 st with
      | none => none
      | some (st', true) => some (st', true)
      | some (st', false) => decodeGo l2 st' := by
  induction l1 generalizing st with
  | nil => simp [decodeGo]
  | cons k ks ih =>
      simp only [List.cons_append, decodeGo]
      cases decodeStep k st with
      | crash => rfl
      | halt st1 => rfl
      | cont st1 => exact ih st1

lemma decodeStep_dataCoding (k : Name) (st st' : DecSt)
    (hk : k ≠ Name.dataCoding)
    (h : decodeStep k st = StepRes.cont st' ∨
      decodeStep k st = StepRes.halt st') :
    st'.dataCoding = st.dataCoding := by
  cases k <;>
    first
      | exact absurd rfl hk
      | (rcases h with h | h <;>
          (simp only [decodeStep] at h; repeat' split at h) <;>
          (cases h <;> rfl))

lemma decodeGo_dataCoding (l : List Name) :
    ∀ (st st' : DecSt) (halted : Bool), Name.dataCoding ∉ l →
      decodeGo l st = some (st', halted) →
        st'.dataCoding = st.dataCoding := by
  induction l with
  | nil =>
      intro st st' halted _ hgo
      simp only [decodeGo, Option.some.injEq, Prod.mk.injEq] at hgo
      rw [← hgo.1]
  | cons k ks ih =>
      intro st st' halted hmem hgo
      simp only [List.mem_cons, not_or] at hmem
      obtain ⟨hk, hks⟩ := hmem
      simp only [decodeGo] at hgo
      cases hstep : decodeStep k st with
      | crash =>
          simp only [hstep] at hgo
          cases hgo
      | halt st1 =>
          simp only [hstep, Option.some.injEq, Prod.mk.injEq] at hgo
          rw [← hgo.1]
          exact decodeStep_dataCoding k st st1 (Ne.symm hk) (Or.inr hstep)
      | cont st1 =>
          simp only [hstep] at hgo
          rw [ih st1 st' halted hks hgo]
          exact decodeStep_dataCoding k st st1 (Ne.symm hk) (Or.inl hstep)

/-- C2 as amended: a buffer that ends in the middle of a mandatory body
field does not make `List.Decode` fail: end of input during a C-string
field or a fixed-octet field is `break loop`, and any `break loop` makes
the whole decode return the map of fields fully parsed so far together
with the nil error (no `ErrMalformed` exists in the decoder). -/
theorem c2_truncation_returns_partial_map :
    (∀ (k : Name) (st : DecSt), k ∈ variableGroupNames →
        (readBytes0 st.buf).1 = none →
        decodeStep k st =
          StepRes.halt { st with buf := (readBytes0 st.buf).2 }) ∧
    (∀ (k : Name) (st : DecSt), k ∈ fixedGroupNames → st.buf = [] →
        decodeStep k st = StepRes.halt st) ∧
    (∀ (l1 l2 : List Name) (k : Name) (buf : List Nat) (st1 st2 : DecSt),
        decodeGo l1 (initSt buf) = some (st1, false) →
        decodeStep k st1 = StepRes.halt st2 →
        List.Decode (l1 ++ k :: l2) buf = some (st2.f, st2.buf)) := by
  refine ⟨?_, ?_, ?_⟩
  · intro k st hk hn
    rcases hrb : readBytes0 st.buf with ⟨o, r⟩
    rw [hrb] at hn
    simp only at hn
    subst hn
    simp only [variableGroupNames, List.mem_cons, List.not_mem_nil,
      or_false] at hk
    rcases hk with rfl | rfl | rfl | rfl | rfl | rfl | rfl | rfl | rfl |
      rfl | rfl | rfl | rfl <;> simp [decodeStep, hrb]
  · intro k st hk hbuf
    simp only [fixedGroupNames, List.mem_cons, List.not_mem_nil,
      or_false] at hk
    rcases hk with rfl | rfl | rfl | rfl | rfl | rfl | rfl | rfl | rfl |
      rfl | rfl | rfl | rfl | rfl | rfl | rfl | rfl <;>
      simp [decodeStep, hbuf]
  · intro l1 l2 k buf st1 st2 h1 h2
    unfold List.Decode
    rw [decodeGo_append, h1]
    simp only [decodeGo, h2]

/-- Witness for C2: end of input in the middle of the `system_id` C-string
(buffer `41`, no terminator) and of a fixed octet (empty buffer) halt the
step; with the schema `service_type, system_id` and buffer `00 41` the
decode returns the partial one-field map and the leftover state of the
halt, with no failure. -/
theorem c2_witness :
    decodeStep Name.systemID (initSt [0x41]) =
      StepRes.halt { initSt [0x41] with buf := (readBytes0 [0x41]).2 } ∧
    decodeStep Name.smLength (initSt []) = StepRes.halt (initSt []) ∧
    List.Decode ([Name.serviceType] ++ Name.systemID :: []) [0, 0x41] =
      some (({ buf := [], f := [(Name.serviceType, Body.var [0])],
               unsuccessCount := 0, numDest := 0, udhLength := 0,
               smLength := 0, dataCoding := 0,
               udhiFlag := false } : DecSt).f,
            ({ buf := [], f := [(Name.serviceType, Body.var [0])],
               unsuccessCount := 0, numDest := 0, udhLength := 0,
               smLength := 0, dataCoding := 0,
               udhiFlag := false } : DecSt).buf) :=
  ⟨c2_truncation_returns_partial_map.1 Name.systemID (initSt [0x41])
      (by decide) (by decide),
   c2_truncation_returns_partial_map.2.1 Name.smLength (initSt [])
      (by decide) rfl,
   c2_truncation_returns_partial_map.2.2 [Name.serviceType] []
      Name.systemID [0, 0x41]
      { buf := [0x41], f := [(Name.serviceType, Body.var [0])],
        unsuccessCount := 0, numDest := 0, udhLength := 0, smLength := 0,
        dataCoding := 0, udhiFlag := false }
      { buf := [], f := [(Name.serviceType, Body.var [0])],
        unsuccessCount := 0, numDest := 0, udhLength := 0, smLength := 0,
        dataCoding := 0, udhiFlag := false }
      (by decide) (by decide)⟩

/-- C3 as amended: the short message octets are always run through the
decoder selected by the current `dataCoding` context value, whether or not
a `data_coding` field was parsed: the value stays at its initial 0 across
every schema prefix free of `data_coding` (first conjunct), the
`short_message` step stores `applyCoding dataCoding` of the consumed
octets (second conjunct), and coding 0 is the GSM7 decoder (third
conjunct) - so without a preceding `data_coding` field the octets are
stored GSM7-decoded, not raw. -/
theorem c3_decoder_selection :
    (∀ (l : List Name) (st st' : DecSt) (halted : Bool),
        Name.dataCoding ∉ l → decodeGo l st = some (st', halted) →
          st'.dataCoding = st.dataCoding) ∧
    (∀ st : DecSt, st.udhiFlag = false → 0 ≤ st.smLength →
        decodeStep Name.shortMessage st = StepRes.cont
          { st with buf := st.buf.drop st.smLength.toNat,
                    f := Map.set st.f Name.shortMessage
                      (Body.sm (applyCoding st.dataCoding
                        (st.buf.take st.smLength.toNat))) }) ∧
    (∀ msg : List Nat, applyCoding 0 msg = gsm7Decode msg) := by
  refine ⟨decodeGo_dataCoding, ?_, fun msg => rfl⟩
  intro st hu h0
  simp only [decodeStep, hu, Bool.false_eq_true, if_false]
  rw [if_neg (by omega)]

/-- Witness for C3: decoding the schema prefix `sm_length` (which contains
no `data_coding`) from buffer `02` leaves `dataCoding` at 0, and the
`short_message` step on the state so reached stores the GSM7-decoded
octets. -/
theorem c3_witness :
    ({ buf := [], f := [(Name.smLength, Body.fixed 2)],
       unsuccessCount := 0, numDest := 0, udhLength := 0, smLength := 2,
       dataCoding := 0, udhiFlag := false } : DecSt).dataCoding =
      (initSt [2]).dataCoding ∧
    decodeStep Name.shortMessage
      { buf := [0x1B, 0x65], f := [(Name.smLength, Body.fixed 2)],
        unsuccessCount := 0, numDest := 0, udhLength := 0, smLength := 2,
        dataCoding := 0, udhiFlag := false } =
      StepRes.cont
        { buf := [], f := [(Name.smLength, Body.fixed 2),
            (Name.shortMessage, Body.sm [0xE2, 0x82, 0xAC])],
          unsuccessCount := 0, numDest := 0, udhLength := 0, smLength := 2,
          dataCoding := 0, udhiFlag := false } := by
  constructor
  · exact c3_decoder_selection.1 [Name.smLength] (initSt [2]) _ false
      (by decide) (by decide)
  · rw [c3_decoder_selection.2.1 _ (by decide) (by decide)]
    decide

/-- C4 as amended: the `gsm_sms_ud.udh.len` step consumes an octet
(storing it as a Fixed value and caching it as the UDH length) iff the
UDHI flag is set and at least one octet remains; with the flag clear both
`gsm_sms_ud.udh.len` and `gsm_sms_ud` are stored as zero-size Null values
consuming no input, and with the flag set on an exhausted buffer the
decode halts, storing nothing for the field. -/
theorem c4_udh_len_gating :
    (∀ st : DecSt, st.udhiFlag = false →
        decodeStep Name.udhLength st =
          StepRes.cont { st with f := Map.set st.f Name.udhLength Body.null }) ∧
    (∀ st : DecSt, st.udhiFlag = false →
        decodeStep Name.gsmUserData st =
          StepRes.cont
            { st with f := Map.set st.f Name.gsmUserData Body.null }) ∧
    (∀ (st : DecSt) (b : Nat) (rest : List Nat), st.udhiFlag = true →
        st.buf = b :: rest →
        decodeStep Name.udhLength st =
          StepRes.cont
            { st with buf := rest, udhLength := b,
                      f := Map.set st.f Name.udhLength (Body.fixed b) }) ∧
    (∀ st : DecSt, st.udhiFlag = true → st.buf = [] →
        decodeStep Name.udhLength st = StepRes.halt st) := by
  refine ⟨?_, ?_, ?_, ?_⟩
  · intro st h
    simp [decodeStep, h]
  · intro st h
    simp [decodeStep, h]
  · intro st b rest h hbuf
    simp [decodeStep, h, hbuf]
  · intro st h hbuf
    simp [decodeStep, h, hbuf]

/-- Witness for C4: with UDHI clear both fields parse to Null without
consuming the buffer; with UDHI set the `udh.len` octet 5 is consumed and
stored Fixed; with UDHI set and an empty buffer the step halts. -/
theorem c4_witness :
    decodeStep Name.udhLength (initSt [9]) =
      StepRes.cont { initSt [9] with
        f := Map.set (initSt [9]).f Name.udhLength Body.null } ∧
    decodeStep Name.gsmUserData (initSt [9]) =
      StepRes.cont { initSt [9] with
        f := Map.set (initSt [9]).f Name.gsmUserData Body.null } ∧
    decodeStep Name.udhLength
      { buf := [5, 7], f := [], unsuccessCount := 0, numDest := 0,
        udhLength := 0, smLength := 0, dataCoding := 0, udhiFlag := true } =
      StepRes.cont
        { buf := [7], f := Map.set [] Name.udhLength (Body.fixed 5),
          unsuccessCount := 0, numDest := 0, udhLength := 5, smLength := 0,
          dataCoding := 0, udhiFlag := true } ∧
    decodeStep Name.udhLength
      { buf := [], f := [], unsuccessCount := 0, numDest := 0,
        udhLength := 0, smLength := 0, dataCoding := 0, udhiFlag := true } =
      StepRes.halt
        { buf := [], f := [], unsuccessCount := 0, numDest := 0,
          udhLength := 0, smLength := 0, dataCoding := 0,
          udhiFlag := true } :=
  by
  obtain ⟨hA, hB, hC, hD⟩ := c4_udh_len_gating
  exact ⟨hA (initSt [9]) rfl, hB (initSt [9]) rfl, hC _ 5 [7] rfl rfl,
    hD _ rfl rfl⟩
